import Mathlib

/-!
Shallow embedding of the chess-GIF rendering core (`src/lib.rs`, with the
duplicated renderer in `src/main.rs` where it diverges) and proofs about it.

The embedding covers: square geometry (`square_to_pixels` and the orientation
flip in `render_board`), the checkerboard rasterizer (`blank_board`,
`render_board`), the fixed 21-entry palette and the nearest-palette-entry
quantizer (the `position_min_by_key` loop in `GameRenderer::render_frame`),
the one-frame-lookahead delta compressor / streaming GIF writer
(`GameRenderer::render_frame` / `render_final_frame`), and the early-return
control flow of `render_game`.

External library code (the `image` crate's `overlay` and raster constructors,
the `gif` encoder, the PGN parser) is abstracted: rasters are row-major pixel
lists, `overlay` is an arbitrary parameter, and emitted GIF frames are
recorded as (pixel buffer, delay) pairs.
-/

/-- An RGBA sample, one `u8` per channel (values kept as `Nat`;
all raster values produced by the code are < 256). Mirrors `image::Rgba`. -/
structure RGBA where
  r : Nat
  g : Nat
  b : Nat
  a : Nat
deriving DecidableEq, Repr

/-- `u8::abs_diff`: absolute difference of two channel values
(no overflow is possible, so plain `Nat` distance is exact). -/
def absDiff (a b : Nat) : Nat := if a ≤ b then b - a else a - b

/-- `GameRenderer::TRANSPARENT_IDX` from `src/lib.rs` line 126. -/
def TRANSPARENT_IDX : Nat := 20

/-- `GameRenderer::PALETTE` from `src/lib.rs` lines 127-149: 21 RGB triples;
entry 20 (`[255, 255, 255]`) sits at the transparent-sentinel index. -/
def PALETTE : List (Nat × Nat × Nat) :=
  [(255, 206, 158),
   (209, 139, 71),
   (159, 129, 99),
   (111, 90, 69),
   (131, 87, 44),
   (91, 61, 31),
   (47, 38, 29),
   (0, 0, 0),
   (79, 64, 49),
   (207, 167, 128),
   (63, 51, 39),
   (39, 26, 13),
   (175, 141, 108),
   (169, 112, 57),
   (143, 116, 89),
   (127, 102, 78),
   (156, 104, 53),
   (118, 78, 40),
   (192, 155, 118),
   (79, 63, 48),
   (255, 255, 255)]

/-- The per-entry quantization key from `render_frame`:
`pos[0].abs_diff(p[0]) + pos[1].abs_diff(p[1]) + pos[2].abs_diff(p[2])`,
the sum of absolute R, G, B differences (alpha ignored). -/
def pixelKey (p : RGBA) (e : Nat × Nat × Nat) : Nat :=
  absDiff e.1 p.r + absDiff e.2.1 p.g + absDiff e.2.2 p.b

/-- Index-and-element form of itertools' `position_min_by_key` contract:
the first element attaining the minimal key, together with its position.
On ties the earlier element wins (Rust's `Iterator::min_by` keeps the first
equally-minimal element; `position_min_by_key` inherits that). -/
def posMin (key : α → Nat) : List α → Option (Nat × α)
  | [] => none
  | x :: xs =>
    match posMin key xs with
    | none => some (0, x)
    | some (j, b) => if key b < key x then some (j + 1, b) else some (0, x)

/-- itertools `Itertools::position_min_by_key`: position of the first
element with minimal key, `none` on an empty iterator. -/
def positionMinByKey (key : α → Nat) (l : List α) : Option Nat :=
  (posMin key l).map Prod.fst

/-- The quantizer from `GameRenderer::render_frame` lines 165-177: the index
of the nearest palette entry by Manhattan RGB distance (`.unwrap()` is safe
because the palette is nonempty; modelled with `getD 0`). -/
def quantizePixel (p : RGBA) : Nat :=
  (positionMinByKey (pixelKey p) PALETTE).getD 0

theorem posMin_eq_none {key : α → Nat} {l : List α} :
    posMin key l = none ↔ l = [] := by
  cases l with
  | nil => simp [posMin]
  | cons x xs =>
    simp only [posMin]
    cases h : posMin key xs with
    | none => simp
    | some jb =>
      obtain ⟨j, b⟩ := jb
      by_cases hk : key b < key x <;> simp [hk]

/-- Specification of `posMin`: the returned pair is an element of the list at
the returned index, its key is minimal, and every strictly earlier element has
a strictly larger key (first-minimum tie-breaking). -/
theorem posMin_spec (key : α → Nat) :
    ∀ (l : List α) (i : Nat) (b : α), posMin key l = some (i, b) →
      l[i]? = some b ∧
      (∀ (j : Nat) (c : α), l[j]? = some c → key b ≤ key c) ∧
      (∀ (j : Nat) (c : α), j < i → l[j]? = some c → key b < key c) := by
  intro l
  induction l with
  | nil => intro i b h; simp [posMin] at h
  | cons x xs ih =>
    intro i b h
    simp only [posMin] at h
    cases htail : posMin key xs with
    | none =>
      rw [htail] at h
      have hxs : xs = [] := posMin_eq_none.mp htail
      subst hxs
      simp only [Option.some.injEq, Prod.mk.injEq] at h
      obtain ⟨hi, hb⟩ := h
      subst hi; subst hb
      refine ⟨rfl, ?_, ?_⟩
      · intro j c hj
        cases j with
        | zero => simp at hj; subst hj; exact le_refl _
        | succ n => simp at hj
      · intro j c hj _; omega
    | some jb =>
      obtain ⟨j0, b0⟩ := jb
      rw [htail] at h
      obtain ⟨hmem, hmin, hfirst⟩ := ih j0 b0 htail
      by_cases hk : key b0 < key x
      · simp only [if_pos hk, Option.some.injEq, Prod.mk.injEq] at h
        obtain ⟨hi, hb⟩ := h
        subst hb
        refine ⟨?_, ?_, ?_⟩
        · rw [← hi]; simpa using hmem
        · intro j c hj
          cases j with
          | zero =>
            simp at hj; subst hj; exact le_of_lt hk
          | succ n =>
            simp only [List.getElem?_cons_succ] at hj
            exact hmin n c hj
        · intro j c hji hj
          cases j with
          | zero =>
            simp at hj; subst hj; exact hk
          | succ n =>
            simp only [List.getElem?_cons_succ] at hj
            exact hfirst n c (by omega) hj
      · simp only [if_neg hk, Option.some.injEq, Prod.mk.injEq] at h
        obtain ⟨hi, hb⟩ := h
        subst hb
        refine ⟨?_, ?_, ?_⟩
        · rw [← hi]; simp
        · intro j c hj
          cases j with
          | zero => simp at hj; subst hj; exact le_refl _
          | succ n =>
            simp only [List.getElem?_cons_succ] at hj
            exact le_trans (Nat.le_of_not_lt hk) (hmin n c hj)
        · intro j c hji _; omega

/-- One emitted GIF frame, as far as the claims are concerned: its indexed
pixel buffer (after sentinel substitution) and its display delay in
hundredths of a second (`frame.delay`). -/
structure GifFrame where
  pixels : List Nat
  delay : Nat
deriving DecidableEq, Repr

/-- The transparent-position computation from `render_frame` lines 178-186:
`indexed_pixels.iter().zip(prev_pixels).positions(|(&curr, &prev)| curr == prev)`,
the positions (in increasing order) where the incoming frame's index equals
the previous frame's index. -/
def transparentIndexes (curr prev : List Nat) : List Nat :=
  (((curr.zip prev).enum.filter fun ip => ip.2.1 == ip.2.2).map Prod.fst)

/-- The sentinel substitution performed on a flushed frame
(lines 191-206 / 215-229): pixel `i` becomes `TRANSPARENT_IDX` when `i` is in
the frame's stored transparent-position set, and is kept otherwise. -/
def substTransparent (pixels : List Nat) (trans : List Nat) : List Nat :=
  pixels.enum.map fun ip => if ip.1 ∈ trans then TRANSPARENT_IDX else ip.2

/-- The state-and-flush step of `GameRenderer::render_frame` after
quantization (lines 178-210): compute the incoming frame's transparent set
against the held frame (empty when nothing is held), replace the held pair,
and, if a pair was displaced, emit it with its own transparent set
substituted and delay 62. Returns (new held state, frames written). -/
def submitFrame (st : Option (List Nat × List Nat)) (indexed : List Nat) :
    Option (List Nat × List Nat) × List GifFrame :=
  match st with
  | none => (some (indexed, []), [])
  | some (prevPixels, prevTransparent) =>
    (some (indexed, transparentIndexes indexed prevPixels),
     [⟨substTransparent prevPixels prevTransparent, 62⟩])

/-- `GameRenderer::render_final_frame` from `src/lib.rs` lines 213-235: flush
the held pair, if any, with sentinel substitution and delay 500. -/
def render_final_frame (st : Option (List Nat × List Nat)) : List GifFrame :=
  match st with
  | none => []
  | some (prevPixels, prevTransparent) =>
    [⟨substTransparent prevPixels prevTransparent, 500⟩]

/-- `GameRenderer::render_final_frame` as duplicated in `src/main.rs`
lines 246-268: identical except that it sets `frame.delay = 62`,
not 500. -/
def render_final_frame_main (st : Option (List Nat × List Nat)) : List GifFrame :=
  match st with
  | none => []
  | some (prevPixels, prevTransparent) =>
    [⟨substTransparent prevPixels prevTransparent, 62⟩]

/-- The quantization pass of `render_frame` lines 165-177 applied to a whole
raster (row-major pixel list). -/
def quantizeRaster (img : List RGBA) : List Nat :=
  img.map quantizePixel

/-- Driving the renderer over a sequence of already-quantized frames: the
visitor calls `render_frame` once per position, threading `last_image`
(initially `None`) and concatenating written frames. -/
def runSubmits (frames : List (List Nat)) :
    Option (List Nat × List Nat) × List GifFrame :=
  frames.foldl
    (fun acc f =>
      let r := submitFrame acc.1 f
      (r.1, acc.2 ++ r.2))
    (none, [])

/-- A full run: submit every frame in order (`render_frame` per position),
then `render_final_frame` at `end_game`. The result is the ordered list of
frames written to the GIF stream. -/
def runGame (frames : List (List Nat)) : List GifFrame :=
  (runSubmits frames).2 ++ render_final_frame (runSubmits frames).1

/-- A full run starting from RGBA rasters: quantize each raster
(`render_frame` lines 165-177), then stream as in `runGame`. -/
def renderFrames (rasters : List (List RGBA)) : List GifFrame :=
  runGame (rasters.map quantizeRaster)

/-- Spec helper: the held `last_image` pair after submitting the frames of
`l` when the held pair is currently `p`. -/
def pendingChain (p : List Nat × List Nat) : List (List Nat) → List Nat × List Nat
  | [] => p
  | f :: rest => pendingChain (f, transparentIndexes f p.1) rest

/-- Spec helper: the frames flushed (delay 62) while submitting the frames of
`l` when the held pair is currently `p`. -/
def emittedChain (p : List Nat × List Nat) : List (List Nat) → List GifFrame
  | [] => []
  | f :: rest =>
    ⟨substTransparent p.1 p.2, 62⟩ :: emittedChain (f, transparentIndexes f p.1) rest

/-- Spec helper: all frames written after the point where `p` is held and the
frames of `l` are still to be submitted (the flushes during the submissions,
then the final flush with delay 500). -/
def gameTail (p : List Nat × List Nat) (l : List (List Nat)) : List GifFrame :=
  emittedChain p l ++
    [⟨substTransparent (pendingChain p l).1 (pendingChain p l).2, 500⟩]

theorem foldl_submit_some (p : List Nat × List Nat) (acc : List GifFrame)
    (l : List (List Nat)) :
    l.foldl
      (fun acc f =>
        let r := submitFrame acc.1 f
        (r.1, acc.2 ++ r.2))
      (some p, acc) =
    (some (pendingChain p l), acc ++ emittedChain p l) := by
  induction l generalizing p acc with
  | nil => simp [pendingChain, emittedChain]
  | cons f rest ih =>
    obtain ⟨a, b⟩ := p
    rw [List.foldl_cons]
    show List.foldl _
      (some (f, transparentIndexes f a), acc ++ [⟨substTransparent a b, 62⟩])
      rest = _
    rw [ih]
    simp [pendingChain, emittedChain]

theorem runGame_nil : runGame [] = [] := by
  simp [runGame, runSubmits, render_final_frame]

theorem runGame_cons (g : List Nat) (l : List (List Nat)) :
    runGame (g :: l) = gameTail (g, []) l := by
  have hstep : runSubmits (g :: l) =
      List.foldl
        (fun (acc : Option (List Nat × List Nat) × List GifFrame) (f : List Nat) =>
          let r := submitFrame acc.1 f
          (r.1, acc.2 ++ r.2))
        (some (g, []), ([] : List GifFrame)) l := rfl
  simp only [runGame, hstep, foldl_submit_some]
  simp [gameTail, render_final_frame]

theorem gameTail_nil (p : List Nat × List Nat) :
    gameTail p [] = [⟨substTransparent p.1 p.2, 500⟩] := by
  simp [gameTail, emittedChain, pendingChain]

theorem gameTail_cons (p : List Nat × List Nat) (f : List Nat)
    (rest : List (List Nat)) :
    gameTail p (f :: rest) =
      ⟨substTransparent p.1 p.2, 62⟩ :: gameTail (f, transparentIndexes f p.1) rest := by
  simp [gameTail, emittedChain, pendingChain]

theorem gameTail_getD_zero (p : List Nat × List Nat) (l : List (List Nat)) :
    ((gameTail p l).getD 0 ⟨[], 0⟩).pixels = substTransparent p.1 p.2 := by
  cases l with
  | nil => rw [gameTail_nil]; rfl
  | cons f rest => rw [gameTail_cons]; rfl

theorem gameTail_length (p : List Nat × List Nat) (l : List (List Nat)) :
    (gameTail p l).length = l.length + 1 := by
  induction l generalizing p with
  | nil => rw [gameTail_nil]; rfl
  | cons f rest ih => rw [gameTail_cons]; simp [ih]

/-- Membership in the transparent-position set: exactly the positions (within
both frames) where the incoming index equals the previous index. -/
theorem mem_transparentIndexes {curr prev : List Nat} {i : Nat} :
    i ∈ transparentIndexes curr prev ↔
      i < curr.length ∧ i < prev.length ∧ curr.getD i 0 = prev.getD i 0 := by
  simp only [transparentIndexes, List.mem_map, List.mem_filter]
  constructor
  · rintro ⟨⟨j, c, p⟩, ⟨hmem, hpred⟩, hfst⟩
    simp only at hfst
    subst hfst
    rw [List.mk_mem_enum_iff_getElem?, List.getElem?_zip_eq_some] at hmem
    obtain ⟨hc, hp⟩ := hmem
    simp only [beq_iff_eq] at hpred
    obtain ⟨hcl, hcv⟩ := List.getElem?_eq_some.mp hc
    obtain ⟨hpl, hpv⟩ := List.getElem?_eq_some.mp hp
    refine ⟨hcl, hpl, ?_⟩
    rw [List.getD_eq_getElem?_getD, List.getD_eq_getElem?_getD, hc, hp]
    simpa using hpred
  · rintro ⟨hcl, hpl, heq⟩
    refine ⟨(i, curr.getD i 0, prev.getD i 0), ⟨?_, ?_⟩, rfl⟩
    · rw [List.mk_mem_enum_iff_getElem?, List.getElem?_zip_eq_some]
      constructor
      · have hc : curr.getD i 0 = curr[i] := by
          rw [List.getD_eq_getElem?_getD, List.getElem?_eq_some.mpr ⟨hcl, rfl⟩]
          rfl
        show curr[i]? = some (curr.getD i 0)
        rw [hc]
        exact List.getElem?_eq_some.mpr ⟨hcl, rfl⟩
      · have hp : prev.getD i 0 = prev[i] := by
          rw [List.getD_eq_getElem?_getD, List.getElem?_eq_some.mpr ⟨hpl, rfl⟩]
          rfl
        show prev[i]? = some (prev.getD i 0)
        rw [hp]
        exact List.getElem?_eq_some.mpr ⟨hpl, rfl⟩
    · simpa using heq

theorem substTransparent_length (pixels trans : List Nat) :
    (substTransparent pixels trans).length = pixels.length := by
  simp [substTransparent, List.enum_length]

theorem substTransparent_getElem (pixels trans : List Nat) (i : Nat)
    (h : i < (substTransparent pixels trans).length)
    (hp : i < pixels.length) :
    (substTransparent pixels trans)[i] =
      if i ∈ trans then TRANSPARENT_IDX else pixels[i] := by
  simp only [substTransparent] at h ⊢
  rw [List.getElem_map, List.getElem_enum]

theorem substTransparent_nil_trans (pixels : List Nat) :
    substTransparent pixels [] = pixels := by
  simp only [substTransparent, List.not_mem_nil, if_false]
  exact List.enum_map_snd pixels

/-- Flushing a frame whose stored transparent set was computed against an
identical predecessor turns every pixel into the sentinel. -/
theorem substTransparent_self (f : List Nat) :
    substTransparent f (transparentIndexes f f) =
      List.replicate f.length TRANSPARENT_IDX := by
  apply List.ext_getElem
  · rw [substTransparent_length, List.length_replicate]
  · intro n h1 h2
    have hp : n < f.length := by
      rw [substTransparent_length] at h1
      exact h1
    rw [substTransparent_getElem f _ n h1 hp, List.getElem_replicate]
    rw [if_pos (mem_transparentIndexes.mpr ⟨hp, hp, rfl⟩)]

theorem gameTail_pair_getD (f : List Nat) :
    ∀ (ps : List (List Nat)) (p : List Nat × List Nat) (rest : List (List Nat)),
      ((gameTail p (ps ++ f :: f :: rest)).getD (ps.length + 2) ⟨[], 0⟩).pixels =
        List.replicate f.length TRANSPARENT_IDX := by
  intro ps
  induction ps with
  | nil =>
    intro p rest
    rw [List.nil_append, gameTail_cons, List.length_nil, Nat.zero_add]
    have h2 : ∀ (x : GifFrame) (L : List GifFrame),
        (x :: L).getD 2 (⟨[], 0⟩ : GifFrame) = L.getD 1 ⟨[], 0⟩ := fun x L => rfl
    rw [h2, gameTail_cons]
    have h1 : ∀ (x : GifFrame) (L : List GifFrame),
        (x :: L).getD 1 (⟨[], 0⟩ : GifFrame) = L.getD 0 ⟨[], 0⟩ := fun x L => rfl
    rw [h1, gameTail_getD_zero]
    exact substTransparent_self f
  | cons a as ih =>
    intro p rest
    rw [List.cons_append, gameTail_cons]
    have hlen : (a :: as).length + 2 = (as.length + 2) + 1 := by
      rw [List.length_cons]
    rw [hlen, List.getD_cons_succ]
    exact ih (a, transparentIndexes a p.1) rest

/-- C1: on every submission, the transparent-position set stored with the
incoming indexed frame is exactly the set of positions where the incoming
frame's palette index equals the previously held frame's index; on the very
first submission (no held frame) the stored set is empty. -/
theorem transparent_set_spec :
    (∀ (indexed prev prevT : List Nat),
       (submitFrame (some (prev, prevT)) indexed).1 =
         some (indexed, transparentIndexes indexed prev)) ∧
    (∀ (indexed prev : List Nat) (i : Nat),
       i ∈ transparentIndexes indexed prev ↔
         i < indexed.length ∧ i < prev.length ∧
           indexed.getD i 0 = prev.getD i 0) ∧
    (∀ indexed : List Nat, (submitFrame none indexed).1 = some (indexed, [])) := by
  refine ⟨fun indexed prev prevT => rfl, ?_, fun indexed => rfl⟩
  intro indexed prev i
  exact mem_transparentIndexes

/-- C3: a run of N submissions followed by the finish call writes exactly N
frames: each submission with a held frame flushes exactly that frame, a
submission with no held frame flushes nothing, finish flushes the held frame
if any, and a run with zero submissions writes nothing. -/
theorem frame_count_spec :
    (∀ frames : List (List Nat), (runGame frames).length = frames.length) ∧
    runGame [] = [] ∧
    (∀ (p : List Nat × List Nat) (f : List Nat),
       (submitFrame (some p) f).2 = [⟨substTransparent p.1 p.2, 62⟩]) ∧
    (∀ f : List Nat, (submitFrame none f).2 = []) ∧
    (∀ p : List Nat × List Nat,
       render_final_frame (some p) = [⟨substTransparent p.1 p.2, 500⟩]) ∧
    render_final_frame none = [] := by
  refine ⟨?_, runGame_nil, fun p f => rfl, fun f => rfl, fun p => rfl, rfl⟩
  intro frames
  cases frames with
  | nil => rw [runGame_nil]; rfl
  | cons g l => rw [runGame_cons, gameTail_length, List.length_cons]

/-- C5 (divergence witness): in `src/lib.rs` every intermediate frame carries
delay 62 and the final frame carries delay 500, but the duplicated renderer in
`src/main.rs` sets delay 62 on the final frame as well. -/
theorem final_delay_divergence :
    (∀ p : List Nat × List Nat,
       (render_final_frame (some p)).map GifFrame.delay = [500]) ∧
    (∀ (p : List Nat × List Nat) (f : List Nat),
       ((submitFrame (some p) f).2).map GifFrame.delay = [62]) ∧
    (∀ p : List Nat × List Nat,
       (render_final_frame_main (some p)).map GifFrame.delay = [62]) ∧
    (500 : Nat) ≠ 62 := by
  exact ⟨fun p => rfl, fun p f => rfl, fun p => rfl, by decide⟩

/-- C6 (counterexample): submissions [0], [1], [1] — the second and third
frames are identical and the second is not the first of the sequence, yet
the second frame is flushed as [1], with no position transparent, because its
stored transparent set was computed against its own predecessor [0]. -/
theorem identical_frames_counterexample :
    ((runGame [[0], [1], [1]]).getD 1 ⟨[], 0⟩).pixels = [1] ∧
      (1 : Nat) ≠ TRANSPARENT_IDX := by
  constructor
  · decide
  · decide

/-- C6 (amended): for two identical consecutive submitted frames it is the
second of the two whose every pixel position is substituted with the sentinel
upon flush (its stored set is computed against the identical first frame);
the very first submitted frame of a sequence is always flushed unchanged
(its stored transparent set is empty). -/
theorem identical_frames_amended :
    (∀ (pre : List (List Nat)) (f : List Nat) (rest : List (List Nat)),
       ((runGame (pre ++ f :: f :: rest)).getD (pre.length + 1) ⟨[], 0⟩).pixels =
         List.replicate f.length TRANSPARENT_IDX) ∧
    (∀ (f : List Nat) (rest : List (List Nat)),
       ((runGame (f :: rest)).getD 0 ⟨[], 0⟩).pixels = f) := by
  constructor
  · intro pre f rest
    cases pre with
    | nil =>
      rw [List.nil_append, List.length_nil, Nat.zero_add, runGame_cons, gameTail_cons]
      have h1 : ∀ (x : GifFrame) (L : List GifFrame),
          (x :: L).getD 1 (⟨[], 0⟩ : GifFrame) = L.getD 0 ⟨[], 0⟩ := fun x L => rfl
      rw [h1, gameTail_getD_zero]
      exact substTransparent_self f
    | cons q qs =>
      rw [List.cons_append, runGame_cons]
      have hlen : (q :: qs).length + 1 = qs.length + 2 := by
        rw [List.length_cons]
      rw [hlen]
      exact gameTail_pair_getD f qs (q, []) rest
  · intro f rest
    rw [runGame_cons, gameTail_getD_zero]
    exact substTransparent_nil_trans f

theorem absDiff_self (a : Nat) : absDiff a a = 0 := by
  simp [absDiff]

theorem absDiff_eq_zero {a b : Nat} : absDiff a b = 0 ↔ a = b := by
  unfold absDiff
  split <;> omega

theorem pixelKey_eq_zero {p : RGBA} {e : Nat × Nat × Nat} :
    pixelKey p e = 0 ↔ e = (p.r, p.g, p.b) := by
  obtain ⟨x, y, z⟩ := e
  simp only [pixelKey, Nat.add_eq_zero, absDiff_eq_zero, Prod.mk.injEq]
  tauto

theorem posMin_cons_isSome (key : α → Nat) (x : α) (xs : List α) :
    ∃ ib : Nat × α, posMin key (x :: xs) = some ib := by
  simp only [posMin]
  cases posMin key xs with
  | none => exact ⟨(0, x), rfl⟩
  | some jb =>
    obtain ⟨j, b⟩ := jb
    by_cases hk : key b < key x
    · exact ⟨(j + 1, b), by simp [hk]⟩
    · exact ⟨(0, x), by simp [hk]⟩

theorem PALETTE_nodup : PALETTE.Nodup := by decide

/-- C2: the quantizer returns a valid palette index whose entry minimizes the
sum of absolute R, G, B differences (alpha ignored); among equally-near
entries the lowest index wins (every strictly lower index is strictly
farther); a pixel whose RGB exactly matches a palette entry maps to exactly
that entry's index; and the result is independent of the alpha channel. -/
theorem quantizer_spec :
    ∀ p : RGBA,
      quantizePixel p < PALETTE.length ∧
      (∀ (j : Nat) (e : Nat × Nat × Nat), PALETTE[j]? = some e →
         pixelKey p (PALETTE.getD (quantizePixel p) (0, 0, 0)) ≤ pixelKey p e) ∧
      (∀ (j : Nat) (e : Nat × Nat × Nat), j < quantizePixel p →
         PALETTE[j]? = some e →
         pixelKey p (PALETTE.getD (quantizePixel p) (0, 0, 0)) < pixelKey p e) ∧
      (∀ (k : Nat) (e : Nat × Nat × Nat), PALETTE[k]? = some e →
         e = (p.r, p.g, p.b) → quantizePixel p = k) ∧
      (∀ a2 : Nat, quantizePixel ⟨p.r, p.g, p.b, a2⟩ = quantizePixel p) := by
  intro p
  obtain ⟨⟨i, b⟩, hps⟩ :=
    posMin_cons_isSome (pixelKey p) (255, 206, 158) PALETTE.tail
  have hps : posMin (pixelKey p) PALETTE = some (i, b) := hps
  have hq : quantizePixel p = i := by
    unfold quantizePixel positionMinByKey
    rw [hps]
    rfl
  obtain ⟨hmem, hmin, hfirst⟩ := posMin_spec (pixelKey p) PALETTE i b hps
  obtain ⟨hlen, hval⟩ := List.getElem?_eq_some.mp hmem
  have hgd : PALETTE.getD (quantizePixel p) (0, 0, 0) = b := by
    rw [hq, List.getD_eq_getElem?_getD, hmem]
    rfl
  refine ⟨?_, ?_, ?_, ?_, ?_⟩
  · rw [hq]; exact hlen
  · intro j e hj
    rw [hgd]
    exact hmin j e hj
  · intro j e hji hj
    rw [hgd]
    exact hfirst j e (by rw [hq] at hji; exact hji) hj
  · intro k e hk hke
    obtain ⟨hkl, hkv⟩ := List.getElem?_eq_some.mp hk
    have hkey0 : pixelKey p e = 0 := pixelKey_eq_zero.mpr hke
    have hble : pixelKey p b ≤ 0 := hkey0 ▸ hmin k e hk
    have hb0 : pixelKey p b = 0 := Nat.le_zero.mp hble
    have hbe : b = (p.r, p.g, p.b) := pixelKey_eq_zero.mp hb0
    have hPi : PALETTE.get ⟨i, hlen⟩ = PALETTE.get ⟨k, hkl⟩ := by
      rw [List.get_eq_getElem, List.get_eq_getElem, hval, hkv, hbe, hke]
    rw [hq]
    exact (PALETTE_nodup.getElem_inj_iff).mp hPi
  · intro a2
    have hkey : pixelKey (⟨p.r, p.g, p.b, a2⟩ : RGBA) = pixelKey p :=
      funext fun e => rfl
    unfold quantizePixel
    rw [hkey]

/-- Witness for C2: the light checkerboard color (255, 206, 158) exactly
matches palette entry 0 and is quantized to index 0. -/
theorem quantizer_spec_witness :
    quantizePixel ⟨255, 206, 158, 255⟩ = 0 :=
  (quantizer_spec ⟨255, 206, 158, 255⟩).2.2.2.1 0 (255, 206, 158) rfl rfl

/-- `square_to_pixels` from `src/lib.rs` lines 22-27: the top-left pixel
offset of a square's 50×50 cell, as `i64` values (file 0-7 left to right,
rank inverted so rank 7 renders at the top). -/
def square_to_pixels (sq : Fin 8 × Fin 8) : Int × Int :=
  ((((sq.1 : Nat) * 50 : Nat) : Int), (((7 - (sq.2 : Nat)) * 50 : Nat) : Int))

/-- The orientation flip applied in `render_board` lines 108-111:
`x = 350 - x; y = 350 - y`. -/
def flipOffset (v : Int × Int) : Int × Int := (350 - v.1, 350 - v.2)

/-- The offset actually used by `render_board` for a square: the raw
`square_to_pixels` offset, mirrored about the board center when the
orientation flag is set. -/
def renderOffset (flip : Bool) (sq : Fin 8 × Fin 8) : Int × Int :=
  if flip then flipOffset (square_to_pixels sq) else square_to_pixels sq

/-- The 50×50 pixel region anchored at an offset. -/
def inRegion (off : Int × Int) (q : Int × Int) : Prop :=
  off.1 ≤ q.1 ∧ q.1 < off.1 + 50 ∧ off.2 ≤ q.2 ∧ q.2 < off.2 + 50

/-- C7: distinct squares map to distinct, non-overlapping 50×50 regions; the
set orientation flag mirrors both offsets about the board center
(`x = 350 - x`, `y = 350 - y`); and the flip is an involution on offsets,
in particular on every square's offsets. -/
theorem square_geometry_spec :
    (∀ s t : Fin 8 × Fin 8, s ≠ t →
       square_to_pixels s ≠ square_to_pixels t ∧
       ∀ q : Int × Int,
         ¬(inRegion (square_to_pixels s) q ∧ inRegion (square_to_pixels t) q)) ∧
    (∀ s : Fin 8 × Fin 8, renderOffset true s =
       (350 - (square_to_pixels s).1, 350 - (square_to_pixels s).2)) ∧
    (∀ v : Int × Int, flipOffset (flipOffset v) = v) ∧
    (∀ s : Fin 8 × Fin 8,
       flipOffset (flipOffset (square_to_pixels s)) = square_to_pixels s) := by
  have hinv : ∀ v : Int × Int, flipOffset (flipOffset v) = v := by
    intro v
    obtain ⟨x, y⟩ := v
    simp only [flipOffset, Prod.mk.injEq]
    omega
  refine ⟨?_, fun s => rfl, hinv, fun s => hinv (square_to_pixels s)⟩
  intro s t hst
  obtain ⟨⟨f1, hf1⟩, ⟨r1, hr1⟩⟩ := s
  obtain ⟨⟨f2, hf2⟩, ⟨r2, hr2⟩⟩ := t
  have hne : f1 ≠ f2 ∨ r1 ≠ r2 := by
    by_contra h
    push_neg at h
    obtain ⟨h1, h2⟩ := h
    subst h1
    subst h2
    exact hst rfl
  constructor
  · intro heq
    simp only [square_to_pixels, Fin.val_mk, Prod.mk.injEq] at heq
    obtain ⟨hx, hy⟩ := heq
    rcases hne with h | h
    · exact h (by omega)
    · exact h (by omega)
  · rintro ⟨q1, q2⟩ ⟨hs, ht⟩
    simp only [inRegion, square_to_pixels, Fin.val_mk] at hs ht
    obtain ⟨hs1, hs2, hs3, hs4⟩ := hs
    obtain ⟨ht1, ht2, ht3, ht4⟩ := ht
    rcases hne with h | h <;> omega

/-- Witness for C7: squares a1 and b1 are distinct and get distinct offsets
with disjoint regions; the point (0, 350) lies only in a1's region. -/
theorem square_geometry_spec_witness :
    square_to_pixels ((0 : Fin 8), (0 : Fin 8)) ≠
        square_to_pixels ((1 : Fin 8), (0 : Fin 8)) ∧
      ¬(inRegion (square_to_pixels ((0 : Fin 8), (0 : Fin 8))) (0, 350) ∧
        inRegion (square_to_pixels ((1 : Fin 8), (0 : Fin 8))) (0, 350)) :=
  ⟨(square_geometry_spec.1 ((0 : Fin 8), (0 : Fin 8)) ((1 : Fin 8), (0 : Fin 8))
      (by decide)).1,
   (square_geometry_spec.1 ((0 : Fin 8), (0 : Fin 8)) ((1 : Fin 8), (0 : Fin 8))
      (by decide)).2 (0, 350)⟩

/-- `shakmaty::Color` for the purposes of sprite lookup. -/
inductive PieceColor
  | white
  | black
deriving DecidableEq

/-- `shakmaty::Role`: the six piece types. -/
inductive PieceRole
  | pawn
  | knight
  | bishop
  | rook
  | queen
  | king
deriving DecidableEq

/-- `shakmaty::Piece`: a colored piece (12 values). -/
structure Piece where
  color : PieceColor
  role : PieceRole
deriving DecidableEq

/-- The light square color `Rgba([0xff, 0xce, 0x9e, 0xFF])`. -/
def lightColor : RGBA := ⟨0xff, 0xce, 0x9e, 0xff⟩

/-- The dark square color `Rgba([0xd1, 0x8b, 0x47, 0xFF])`. -/
def darkColor : RGBA := ⟨0xd1, 0x8b, 0x47, 0xff⟩

/-- The per-pixel rule of `blank_board` (`src/lib.rs` lines 29-37): light when
`((x / 50) ^ (y / 50)) % 2 == 0`, dark otherwise. -/
def blankPixel (x y : Nat) : RGBA :=
  if ((x / 50) ^^^ (y / 50)) % 2 = 0 then lightColor else darkColor

/-- `image::RgbaImage::from_par_fn(w, h, f)`: a row-major pixel buffer in
which pixel `(x, y)` sits at index `y * w + x` (the `image` crate's layout
contract; parallel evaluation is irrelevant to the resulting buffer). -/
def imageFromFn (w h : Nat) (f : Nat → Nat → RGBA) : List RGBA :=
  (List.range (w * h)).map fun i => f (i % w) (i / w)

/-- `blank_board` from `src/lib.rs` lines 29-37. -/
def blank_board : List RGBA := imageFromFn (8 * 50) (8 * 50) blankPixel

/-- `shakmaty::Square::ALL` in rendering order: square index 0-63 with
file = index mod 8, rank = index div 8 (a1, b1, ..., h8). -/
def allSquares : List (Fin 8 × Fin 8) :=
  (List.finRange 64).map fun i =>
    (⟨i.val % 8, Nat.mod_lt _ (by norm_num)⟩,
     ⟨i.val / 8, by have h := i.isLt; omega⟩)

/-- `render_board` from `src/lib.rs` lines 102-117. The sprite map
(`PIECE_IMAGES.get`) is a parameter returning `Option`, and the external
`imageops::overlay` (image crate) is an arbitrary parameter; the `.unwrap()`
panic branch on a missing sprite is modelled by propagating `none`. -/
def render_board {β : Type} (overlay : List RGBA → β → Int → Int → List RGBA)
    (pieceImages : Piece → Option β)
    (board : Fin 8 × Fin 8 → Option Piece) (flip : Bool) : Option (List RGBA) :=
  allSquares.foldl
    (fun acc sq =>
      acc.bind fun img =>
        match board sq with
        | none => some img
        | some piece =>
          match pieceImages piece with
          | none => none
          | some pimg => some (overlay img pimg (renderOffset flip sq).1 (renderOffset flip sq).2))
    (some blank_board)

theorem foldl_id_of_step {σ α : Type} (g : σ → α → σ) (hg : ∀ s a, g s a = s) :
    ∀ (l : List α) (s : σ), l.foldl g s = s := by
  intro l
  induction l with
  | nil => intro s; rfl
  | cons a rest ih =>
    intro s
    rw [List.foldl_cons, hg]
    exact ih s

theorem foldl_isSome {σ α : Type} (g : Option σ → α → Option σ)
    (hg : ∀ (s : Option σ) (a : α), s.isSome = true → (g s a).isSome = true) :
    ∀ (l : List α) (s : Option σ), s.isSome = true →
      (l.foldl g s).isSome = true := by
  intro l
  induction l with
  | nil => intro s hs; exact hs
  | cons a rest ih =>
    intro s hs
    rw [List.foldl_cons]
    exact ih (g s a) (hg s a hs)

theorem imageFromFn_getD (w h : Nat) (f : Nat → Nat → RGBA) (x y : Nat)
    (hx : x < w) (hy : y < h) (d : RGBA) :
    (imageFromFn w h f).getD (y * w + x) d = f x y := by
  unfold imageFromFn
  have hw : 0 < w := by omega
  have hi : y * w + x < w * h := by
    calc y * w + x < y * w + w := by omega
    _ = (y + 1) * w := by ring
    _ ≤ h * w := Nat.mul_le_mul_right w (by omega)
    _ = w * h := Nat.mul_comm h w
  have hcomm : y * w + x = x + y * w := by omega
  rw [List.getD_eq_getElem?_getD, List.getElem?_map, List.getElem?_range hi]
  simp only [Option.map_some']
  rw [Option.getD_some, hcomm, Nat.add_mul_mod_self_right, Nat.mod_eq_of_lt hx,
    Nat.add_mul_div_right x y hw, Nat.div_eq_of_lt hx, Nat.zero_add]

/-- C8: rendering the empty board (no occupied squares, for any sprite map,
overlay and orientation) yields exactly the blank checkerboard; the raster
has 400×400 pixels, and pixel (x, y) is the light color (0xff, 0xce, 0x9e)
when `((x / 50) ^ (y / 50))` is even and the dark color (0xd1, 0x8b, 0x47)
when it is odd. -/
theorem blank_board_spec :
    (∀ (β : Type) (overlay : List RGBA → β → Int → Int → List RGBA)
       (pieceImages : Piece → Option β) (flip : Bool),
       render_board overlay pieceImages (fun _ => none) flip = some blank_board) ∧
    blank_board.length = 400 * 400 ∧
    (∀ x y : Nat, x < 400 → y < 400 →
       blank_board.getD (y * 400 + x) ⟨0, 0, 0, 0⟩ =
         if ((x / 50) ^^^ (y / 50)) % 2 = 0 then ⟨0xff, 0xce, 0x9e, 0xff⟩
         else ⟨0xd1, 0x8b, 0x47, 0xff⟩) := by
  refine ⟨?_, ?_, ?_⟩
  · intro β overlay pieceImages flip
    unfold render_board
    exact foldl_id_of_step _ (fun s sq => by cases s <;> rfl) allSquares
      (some blank_board)
  · show (imageFromFn (8 * 50) (8 * 50) blankPixel).length = 400 * 400
    unfold imageFromFn
    rw [List.length_map, List.length_range]
  · intro x y hx hy
    show (imageFromFn (8 * 50) (8 * 50) blankPixel).getD (y * (8 * 50) + x)
        ⟨0, 0, 0, 0⟩ = _
    rw [imageFromFn_getD (8 * 50) (8 * 50) blankPixel x y (by omega) (by omega)]
    rfl

/-- Witness for C8: the top-left pixel (0, 0) of the blank board is the light
color. -/
theorem blank_board_spec_witness :
    blank_board.getD 0 ⟨0, 0, 0, 0⟩ = ⟨0xff, 0xce, 0x9e, 0xff⟩ := by
  simpa using blank_board_spec.2.2 0 0 (by decide) (by decide)

/-- C9: if the sprite map holds an image for every one of the 12 piece values
then for every board state and orientation the sprite lookup in
`render_board` always succeeds, so its `.unwrap()` failure branch is never
reached and `render_board` returns a raster. -/
theorem render_board_total :
    ∀ (β : Type) (overlay : List RGBA → β → Int → Int → List RGBA)
      (pieceImages : Piece → Option β),
      (∀ pc : Piece, (pieceImages pc).isSome = true) →
      ∀ (board : Fin 8 × Fin 8 → Option Piece) (flip : Bool),
        (render_board overlay pieceImages board flip).isSome = true := by
  intro β overlay pieceImages hcomplete board flip
  unfold render_board
  refine foldl_isSome _ ?_ allSquares (some blank_board) rfl
  intro s sq hs
  cases s with
  | none => exact absurd hs (by simp)
  | some img =>
    show (Option.bind (some img) _).isSome = true
    rw [Option.some_bind]
    cases hb : board sq with
    | none => rfl
    | some piece =>
      have hsp := hcomplete piece
      cases hp : pieceImages piece with
      | none => rw [hp] at hsp; exact absurd hsp (by simp)
      | some pimg =>
        simp only [hp]
        rfl

/-- Witness for C9: with a complete (constant) sprite map, rendering
the empty board succeeds. -/
theorem render_board_total_witness :
    (∀ pc : Piece, ((fun _ : Piece => some ()) pc).isSome = true) ∧
    (render_board (fun img _ _ _ => img) (fun _ : Piece => some ())
        (fun _ => none) false).isSome = true :=
  ⟨fun _ => rfl,
   render_board_total Unit (fun img _ _ _ => img) (fun _ : Piece => some ())
     (fun _ => rfl) (fun _ => none) false⟩

/-- A 400×400 raster: the blank checkerboard with its top-left pixel replaced
by pure white — standing in for a composited board raster containing a white
sprite pixel (the sprite PNG assets are binary resources outside the
sources). -/
def whiteDotRaster : List RGBA := ⟨255, 255, 255, 255⟩ :: blank_board.tail

/-- C4 (counterexample): the quantizer maps pure white to index 20, which is
exactly `TRANSPARENT_IDX` — the sentinel is itself a reachable color index —
and submitting a raster containing a white pixel makes the sentinel appear in
the pixel data of the first emitted frame. -/
theorem sentinel_counterexample :
    quantizePixel ⟨255, 255, 255, 255⟩ = TRANSPARENT_IDX ∧
    ((renderFrames [whiteDotRaster, whiteDotRaster]).getD 0
        ⟨[], 0⟩).pixels.getD 0 0 = TRANSPARENT_IDX := by
  constructor
  · decide
  · have h1 : renderFrames [whiteDotRaster, whiteDotRaster] =
        runGame (quantizeRaster whiteDotRaster ::
          [quantizeRaster whiteDotRaster]) := rfl
    rw [h1, runGame_cons, gameTail_getD_zero]
    show (substTransparent (quantizeRaster whiteDotRaster) []).getD 0 0 =
      TRANSPARENT_IDX
    rw [substTransparent_nil_trans]
    show (List.map quantizePixel
      (⟨255, 255, 255, 255⟩ :: blank_board.tail)).getD 0 0 = TRANSPARENT_IDX
    rw [List.map_cons, List.getD_cons_zero]
    decide

/-- C4 (amended): the first emitted frame's pixels are the raw quantizer
output of the first raster, with no sentinel substitution (its transparent
set is empty); the quantizer sends both checkerboard background colors to
the non-sentinel indices 0 and 1, so an empty-board raster is sentinel-free;
but the guarantee does not extend to arbitrary composited content, because
palette entry 20 — the sentinel slot itself — is pure white and is returned
by the quantizer for near-white pixels. -/
theorem sentinel_amended :
    (∀ (r : List RGBA) (rest : List (List RGBA)),
       ((renderFrames (r :: rest)).getD 0 ⟨[], 0⟩).pixels =
         r.map quantizePixel) ∧
    (∀ x y : Nat,
       quantizePixel (blankPixel x y) = 0 ∨ quantizePixel (blankPixel x y) = 1) ∧
    (∀ x y : Nat, quantizePixel (blankPixel x y) ≠ TRANSPARENT_IDX) := by
  have hlight : quantizePixel lightColor = 0 := by decide
  have hdark : quantizePixel darkColor = 1 := by decide
  refine ⟨?_, ?_, ?_⟩
  · intro r rest
    have h1 : renderFrames (r :: rest) =
        runGame (quantizeRaster r :: rest.map quantizeRaster) := rfl
    rw [h1, runGame_cons, gameTail_getD_zero]
    exact substTransparent_nil_trans _
  · intro x y
    unfold blankPixel
    split
    · exact Or.inl hlight
    · exact Or.inr hdark
  · intro x y
    unfold blankPixel
    split
    · rw [hlight]; decide
    · rw [hdark]; decide

/-- The externally observable effect relevant to C10: `GameRenderer::new`
creating the output file (`File::create`, `src/lib.rs` line 152). -/
inductive RenderEffect
  | createFile
deriving DecidableEq

/-- `render_game` from `src/lib.rs` lines 330-338, as control flow over the
external PGN reader: `hasMore` is the fallible result of
`reader.has_more()` (the `?` operator propagates its error), and `readGame`
abstracts `reader.read_game(&mut renderer)` — the effects it performs and
its result. With no game present the function returns `Ok(None)` at once;
otherwise `GameRenderer::new` runs first, whose first action is
`File::create`, and then the game is read. -/
def render_game (hasMore : Except String Bool)
    (readGame : List RenderEffect × Option Bool) :
    Except String (Option Bool) × List RenderEffect :=
  match hasMore with
  | Except.error e => (Except.error e, [])
  | Except.ok false => (Except.ok none, [])
  | Except.ok true =>
    (Except.ok readGame.2, RenderEffect.createFile :: readGame.1)

/-- C10: when the input contains no game, `render_game` returns `Ok(None)`
and performs no effect — the output file is never created — whereas when a
game is present, the renderer is constructed (creating the file) before
anything else happens. -/
theorem render_game_no_game :
    (∀ readGame, render_game (Except.ok false) readGame =
       (Except.ok none, [])) ∧
    (∀ readGame,
       RenderEffect.createFile ∉ (render_game (Except.ok false) readGame).2) ∧
    (∀ readGame, (render_game (Except.ok true) readGame).2.head? =
       some RenderEffect.createFile) := by
  refine ⟨fun _ => rfl, fun r => ?_, fun _ => rfl⟩
  simp [render_game]
